import Mathlib

/-!
Verification of the resilient output-extraction engine and pipeline entry of
the repository (a shallow embedding of
`steps/analysis_and_planning/utils/planning_metadata_saver.py` and
`steps/repository_creation/load_bundle.py`, together with the behaviour of
the Python standard-library pieces they rely on: `json.loads`, `str.strip`,
`str.replace`, the `re` patterns used, and Python dict-merge semantics).

Text is modelled as `List Char` (Python iterates strings character by
character).  JSON values are modelled by the inductive `Json` below; Python
dicts are association lists with unique keys maintained by `dinsert`
(replace-in-place, append-if-new — exactly CPython's dict update order).
-/

namespace Extract

/-- JSON values as produced by `json.loads`.  Non-integral numbers and the
`NaN`/`Infinity` extensions are kept as their literal text (`numF`); the
concrete inputs in this development only use integers. -/
inductive Json where
  | null : Json
  | bool : Bool → Json
  | num : Int → Json
  | numF : String → Json
  | str : String → Json
  | arr : List Json → Json
  | obj : List (String × Json) → Json

/-- Digits of a float literal (mantissa part, before any exponent marker). -/
def mantissaDigits (s : String) : List Char :=
  (s.toList.takeWhile (fun c => c ≠ 'e' ∧ c ≠ 'E')).filter Char.isDigit

/-- Python truthiness of a JSON-shaped value (`bool(x)`). -/
def truthy : Json → Bool
  | .null => false
  | .bool b => b
  | .num i => decide (i ≠ 0)
  | .numF s =>
    if (mantissaDigits s).isEmpty then true
    else ! (mantissaDigits s).all (· = '0')
  | .str s => decide (s ≠ "")
  | .arr l => ! l.isEmpty
  | .obj l => ! l.isEmpty

/-- Python `d.get(k)` / `d[k]` lookup on an association-list dict. -/
def dget (l : List (String × Json)) (k : String) : Option Json :=
  match l with
  | [] => none
  | (k', v) :: t => if k' = k then some v else dget t k

/-- Python `d[k] = v`: replace in place if the key exists, else append. -/
def dinsert (l : List (String × Json)) (k : String) (v : Json) :
    List (String × Json) :=
  match l with
  | [] => [(k, v)]
  | (k', v') :: t => if k' = k then (k, v) :: t else (k', v') :: dinsert t k v

/-- Sequential insertion (`{**d, **updates}`, update order). -/
def dinsertAll (l : List (String × Json)) (ps : List (String × Json)) :
    List (String × Json) :=
  ps.foldl (fun acc p => dinsert acc p.1 p.2) l

/-- `k in d` for a dict. -/
def dmem (l : List (String × Json)) (k : String) : Bool :=
  (dget l k).isSome

-- ---------------------------------------------------------------------------
-- Character classes and small string utilities (CPython behaviour)
-- ---------------------------------------------------------------------------

/-- ASCII whitespace recognised by `str.strip()` / regex `\s`. -/
def pySpace (c : Char) : Bool :=
  c = ' ' ∨ c = '\t' ∨ c = '\n' ∨ c = '\r' ∨ c = '\x0b' ∨ c = '\x0c'

/-- Whitespace accepted between JSON tokens by `json.loads`. -/
def jsonSpace (c : Char) : Bool :=
  c = ' ' ∨ c = '\t' ∨ c = '\n' ∨ c = '\r'

/-- `str.strip()` on both ends. -/
def pyStrip (cs : List Char) : List Char :=
  ((cs.dropWhile pySpace).reverse.dropWhile pySpace).reverse

/-- ASCII lower-casing, as `str.lower()` does on the labels involved. -/
def lowerChar (c : Char) : Char :=
  if 'A' ≤ c ∧ c ≤ 'Z' then Char.ofNat (c.toNat + 32) else c

def lowerStr (cs : List Char) : List Char := cs.map lowerChar

/-- Does `pat` occur as a contiguous substring (`pat in s` in Python)? -/
def containsSub (cs pat : List Char) : Bool :=
  (cs.tails).any (fun t => pat.isPrefixOf t)

/-- `s.replace(pat, rep)`: all non-overlapping occurrences, left to right.
Structurally recursive on a fuel bounded by the text length (a non-empty
pattern always consumes at least one character). -/
def replaceAllF : Nat → List Char → List Char → List Char → List Char
  | 0, cs, _, _ => cs
  | fuel + 1, cs, pat, rep =>
    match cs with
    | [] => []
    | c :: t =>
      if ! pat.isEmpty ∧ pat.isPrefixOf (c :: t) = true then
        rep ++ replaceAllF fuel ((c :: t).drop pat.length) pat rep
      else
        c :: replaceAllF fuel t pat rep

def replaceAll (cs pat rep : List Char) : List Char :=
  replaceAllF (cs.length + 1) cs pat rep

-- ---------------------------------------------------------------------------
-- `json.loads` (strict JSON, recursive-descent with fuel)
-- ---------------------------------------------------------------------------

def skipWs (cs : List Char) : List Char := cs.dropWhile jsonSpace

def isDigit (c : Char) : Bool := '0' ≤ c ∧ c ≤ '9'

def digitVal (c : Char) : Nat := c.toNat - '0'.toNat

def digitsToNat (ds : List Char) : Nat :=
  ds.foldl (fun acc c => acc * 10 + digitVal c) 0

def hexVal (c : Char) : Option Nat :=
  if '0' ≤ c ∧ c ≤ '9' then some (c.toNat - '0'.toNat)
  else if 'a' ≤ c ∧ c ≤ 'f' then some (c.toNat - 'a'.toNat + 10)
  else if 'A' ≤ c ∧ c ≤ 'F' then some (c.toNat - 'A'.toNat + 10)
  else none

/-- Decode a JSON string body after the opening quote.  Returns the decoded
characters and the remainder after the closing quote.  Strict mode: raw
control characters are rejected; unknown escapes are rejected. -/
def parseStringBody (cs : List Char) : Option (List Char × List Char) :=
  match cs with
  | [] => none
  | '"' :: rest => some ([], rest)
  | '\\' :: e :: rest =>
    match e with
    | '"' => (parseStringBody rest).map (fun (s, r) => ('"' :: s, r))
    | '\\' => (parseStringBody rest).map (fun (s, r) => ('\\' :: s, r))
    | '/' => (parseStringBody rest).map (fun (s, r) => ('/' :: s, r))
    | 'b' => (parseStringBody rest).map (fun (s, r) => ('\x08' :: s, r))
    | 'f' => (parseStringBody rest).map (fun (s, r) => ('\x0c' :: s, r))
    | 'n' => (parseStringBody rest).map (fun (s, r) => ('\n' :: s, r))
    | 'r' => (parseStringBody rest).map (fun (s, r) => ('\r' :: s, r))
    | 't' => (parseStringBody rest).map (fun (s, r) => ('\t' :: s, r))
    | 'u' =>
      match rest with
      | h1 :: h2 :: h3 :: h4 :: rest' =>
        match hexVal h1, hexVal h2, hexVal h3, hexVal h4 with
        | some a, some b, some c, some d =>
          (parseStringBody rest').map
            (fun (s, r) => (Char.ofNat (((a * 16 + b) * 16 + c) * 16 + d) :: s, r))
        | _, _, _, _ => none
      | _ => none
    | _ => none
  | c :: rest =>
    if c.toNat < 32 then none
    else (parseStringBody rest).map (fun (s, r) => (c :: s, r))

/-- Parse the digit run of a number; empty run fails. -/
def parseDigits (cs : List Char) : Option (List Char × List Char) :=
  let ds := cs.takeWhile isDigit
  if ds = [] then none else some (ds, cs.drop ds.length)

/-- Parse a JSON number after an optional leading minus has been noted.
Returns the value and the remainder.  Leading zeros are rejected, exactly as
`json.loads` does. -/
def parseNumberCore (neg : Bool) (cs : List Char) : Option (Json × List Char) := do
  let (intDs, rest) ← parseDigits cs
  if intDs.length > 1 ∧ intDs.headI = '0' then none else
  let mkLit (frac : List Char) (exp : List Char) : String :=
    String.mk ((if neg then ['-'] else []) ++ intDs ++ frac ++ exp)
  match rest with
  | '.' :: rest' => do
    let (fracDs, rest'') ← parseDigits rest'
    match rest'' with
    | e :: rest3 =>
      if e = 'e' ∨ e = 'E' then do
        let (sign, rest4) :=
          match rest3 with
          | '+' :: r => (['+'], r)
          | '-' :: r => (['-'], r)
          | r => (([] : List Char), r)
        let (expDs, rest5) ← parseDigits rest4
        some (Json.numF (mkLit ('.' :: fracDs) (e :: sign ++ expDs)), rest5)
      else some (Json.numF (mkLit ('.' :: fracDs) []), rest'')
    | [] => some (Json.numF (mkLit ('.' :: fracDs) []), [])
  | e :: rest' =>
    if e = 'e' ∨ e = 'E' then do
      let (sign, rest2) :=
        match rest' with
        | '+' :: r => (['+'], r)
        | '-' :: r => (['-'], r)
        | r => (([] : List Char), r)
      let (expDs, rest3) ← parseDigits rest2
      some (Json.numF (mkLit [] (e :: sign ++ expDs)), rest3)
    else
      some (Json.num (if neg then -(digitsToNat intDs : Int) else (digitsToNat intDs : Int)), rest)
  | [] => some (Json.num (if neg then -(digitsToNat intDs : Int) else (digitsToNat intDs : Int)), [])

mutual

/-- Parse one JSON value; `cs` must start at a non-space character. -/
def parseVal (fuel : Nat) (cs : List Char) : Option (Json × List Char) :=
  match fuel with
  | 0 => none
  | fuel + 1 =>
    match cs with
    | '{' :: rest => parseObjItems fuel (skipWs rest) []
    | '[' :: rest => parseArrItems fuel (skipWs rest) []
    | '"' :: rest => (parseStringBody rest).map (fun (s, r) => (Json.str (String.mk s), r))
    | 't' :: 'r' :: 'u' :: 'e' :: rest => some (Json.bool true, rest)
    | 'f' :: 'a' :: 'l' :: 's' :: 'e' :: rest => some (Json.bool false, rest)
    | 'n' :: 'u' :: 'l' :: 'l' :: rest => some (Json.null, rest)
    | 'N' :: 'a' :: 'N' :: rest => some (Json.numF "NaN", rest)
    | 'I' :: 'n' :: 'f' :: 'i' :: 'n' :: 'i' :: 't' :: 'y' :: rest =>
      some (Json.numF "Infinity", rest)
    | '-' :: 'I' :: 'n' :: 'f' :: 'i' :: 'n' :: 'i' :: 't' :: 'y' :: rest =>
      some (Json.numF "-Infinity", rest)
    | '-' :: rest => parseNumberCore true rest
    | c :: _ => if isDigit c then parseNumberCore false cs else none
    | [] => none

/-- Parse object members; called just past `{` (whitespace skipped). -/
def parseObjItems (fuel : Nat) (cs : List Char) (acc : List (String × Json)) :
    Option (Json × List Char) :=
  match fuel with
  | 0 => none
  | fuel + 1 =>
    match cs with
    | '}' :: rest => if acc.isEmpty then some (Json.obj [], rest) else none
    | '"' :: rest => do
      let (key, rest1) ← parseStringBody rest
      let rest2 := skipWs rest1
      match rest2 with
      | ':' :: rest3 => do
        let (v, rest4) ← parseVal fuel (skipWs rest3)
        let acc' := dinsert acc (String.mk key) v
        match skipWs rest4 with
        | ',' :: rest5 =>
          match skipWs rest5 with
          | '"' :: rest6 => parseObjItems fuel ('"' :: rest6) acc'
          | _ => none
        | '}' :: rest5 => some (Json.obj acc', rest5)
        | _ => none
      | _ => none
    | _ => none

/-- Parse array elements; called just past `[` (whitespace skipped). -/
def parseArrItems (fuel : Nat) (cs : List Char) (acc : List Json) :
    Option (Json × List Char) :=
  match fuel with
  | 0 => none
  | fuel + 1 =>
    match cs with
    | ']' :: rest => if acc.isEmpty then some (Json.arr [], rest) else none
    | _ => do
      let (v, rest1) ← parseVal fuel cs
      match skipWs rest1 with
      | ',' :: rest2 => parseArrItems fuel (skipWs rest2) (acc ++ [v])
      | ']' :: rest2 => some (Json.arr (acc ++ [v]), rest2)
      | _ => none

end

/-- `json.loads`: parse a complete document; trailing non-space input or any
syntax error yields `none` (Python raises `json.JSONDecodeError`). -/
def jsonParse (cs : List Char) : Option Json := do
  let (v, rest) ← parseVal (2 * cs.length + 8) (skipWs cs)
  if (skipWs rest).isEmpty then some v else none

-- ---------------------------------------------------------------------------
-- Fenced code blocks: `re.finditer(r'```(?:json)?\s*(.*?)\s*```', raw,
--                                  re.DOTALL | re.IGNORECASE)`
-- ---------------------------------------------------------------------------

def backtickMarker : List Char := ['`', '`', '`']

/-- Drop text up to and including the first triple-backtick marker. -/
def findMarker : List Char → Option (List Char)
  | [] => none
  | c :: t =>
    if backtickMarker.isPrefixOf (c :: t) then some ((c :: t).drop 3)
    else findMarker t

/-- Split at the first triple-backtick marker: the text before it and the
text after it. -/
def splitAtMarker : List Char → Option (List Char × List Char)
  | [] => none
  | c :: t =>
    if backtickMarker.isPrefixOf (c :: t) then some ([], (c :: t).drop 3)
    else (splitAtMarker t).map (fun (pre, post) => (c :: pre, post))

/-- Case-insensitive `json` tag directly after the opening marker
(`(?:json)?` with `re.IGNORECASE`). -/
def jsonTagPrefix (cs : List Char) : Bool :=
  (lowerStr (cs.take 4)) = ['j', 's', 'o', 'n']

/-- Position just after the optional `json` tag and the greedy `\s*`
following an opening fence marker. -/
def fenceContentStart (afterOpen : List Char) : List Char :=
  (if jsonTagPrefix afterOpen then afterOpen.drop 4 else afterOpen).dropWhile pySpace

/-- All fenced-block contents in document order, each with surrounding
whitespace stripped, exactly as the lazy regex captures them: after an
opening marker the optional `json` tag and leading whitespace are skipped,
the capture runs up to the next marker, and trailing whitespace is
stripped.  An opening marker without a later closing marker matches
nothing.  Fuel-bounded: every match consumes at least the closing marker. -/
def findFencesF : Nat → List Char → List (List Char)
  | 0, _ => []
  | fuel + 1, cs =>
    match findMarker cs with
    | none => []
    | some afterOpen =>
      match splitAtMarker (fenceContentStart afterOpen) with
      | none => []
      | some (content, afterClose) =>
        pyStrip content :: findFencesF fuel afterClose

def findFences (cs : List Char) : List (List Char) :=
  findFencesF (cs.length + 1) cs

/-- `_extract_fenced_json`: try each fenced block from last to first; skip
empty contents; return the first content that `json.loads` accepts. -/
def extractFencedJson (raw : List Char) : Option Json :=
  (findFences raw).reverse.firstM
    (fun content =>
      if content.isEmpty then none else jsonParse content)

-- ---------------------------------------------------------------------------
-- `scan_pairs`: string-aware balanced-delimiter scanner
-- ---------------------------------------------------------------------------

/-- The loop state of `scan_pairs`: current nesting depth, the open span's
characters accumulated in reverse (`none` when `start_idx is None`), and
the string/escape flags. -/
structure ScanState where
  depth : Nat
  cur : Option (List Char)
  inString : Bool
  escape : Bool

/-- One iteration of the `scan_pairs` loop on character `ch`: the next state
and the span emitted at this position, if any. -/
def scanStep (openc closec ch : Char) (st : ScanState) :
    ScanState × Option (List Char) :=
  let push := st.cur.map (fun acc => ch :: acc)
  if st.inString then
    if st.escape then (⟨st.depth, push, true, false⟩, none)
    else if ch = '\\' then (⟨st.depth, push, true, true⟩, none)
    else if ch = '"' then (⟨st.depth, push, false, false⟩, none)
    else (⟨st.depth, push, true, false⟩, none)
  else if ch = '"' then (⟨st.depth, push, true, false⟩, none)
  else if ch = openc then
    match st.cur with
    | none => (⟨st.depth + 1, some [ch], false, false⟩, none)
    | some acc => (⟨st.depth + 1, some (ch :: acc), false, false⟩, none)
  else if ch = closec then
    match st.depth, st.cur with
    | d + 1, some acc =>
      if d = 0 then (⟨0, none, false, false⟩, some ((ch :: acc).reverse))
      else (⟨d, some (ch :: acc), false, false⟩, none)
    | d + 1, none => (⟨d, none, false, false⟩, none)
    | 0, _ => (⟨0, push, false, false⟩, none)
  else (⟨st.depth, push, false, false⟩, none)

/-- The `scan_pairs` loop: fold `scanStep` over the text, collecting
emitted spans in order. -/
def scanAux (openc closec : Char) : List Char → ScanState → List (List Char)
  | [], _ => []
  | ch :: rest, st =>
    match scanStep openc closec ch st with
    | (st', some sp) => sp :: scanAux openc closec rest st'
    | (st', none) => scanAux openc closec rest st'

/-- `scan_pairs(open_ch, close_ch)` run over a whole text: the ordered list
of maximal balanced spans (each span includes its delimiters). -/
def scanPairs (openc closec : Char) (text : List Char) : List (List Char) :=
  scanAux openc closec text ⟨0, none, false, false⟩

/-- The candidate pool of `_parse_json_from_raw`: all balanced `{}` spans
followed by all balanced `[]` spans. -/
def candidatesOf (text : List Char) : List (List Char) :=
  scanPairs '{' '}' text ++ scanPairs '[' ']' text

/-- `for chunk in reversed(candidates): try: return json.loads(chunk)`. -/
def firstParse : List (List Char) → Option Json
  | [] => none
  | c :: rest =>
    match jsonParse c with
    | some v => some v
    | none => firstParse rest

/-- `raw.strip().replace("```json", "```").replace("```", "\n")`. -/
def normalizeText (raw : List Char) : List Char :=
  replaceAll (replaceAll (pyStrip raw) "```json".toList "```".toList)
    "```".toList "\n".toList

/-- Python `text[-400:]`. -/
def last400 (cs : List Char) : List Char :=
  cs.drop (cs.length - 400)

/-- The failure dictionary built at the end of `_parse_json_from_raw`.  The
embedded reason abstracts the exception text CPython would interpolate. -/
def parseFailureObj (text : List Char) : Json :=
  Json.obj [("error", Json.str "failed to parse JSON"),
            ("raw_excerpt", Json.str (String.mk (last400 text)))]

/-- `_parse_json_from_raw`: empty guard, fenced blocks (result kept only when
truthy), pooled balanced spans tried in reverse, whole normalized text, and
finally the failure dictionary. -/
def parseJsonFromRaw (raw : List Char) : Json :=
  if raw.isEmpty then Json.obj [("error", Json.str "empty task output")]
  else
    let fenced := extractFencedJson raw
    match fenced with
    | some v =>
      if truthy v then v
      else parseJsonFromRawFallback raw
    | none => parseJsonFromRawFallback raw
where
  /-- Steps 2–4 of the chain, shared by both non-fenced paths. -/
  parseJsonFromRawFallback (raw : List Char) : Json :=
    let text := normalizeText raw
    match firstParse (candidatesOf text).reverse with
    | some v => v
    | none =>
      match jsonParse text with
      | some v => v
      | none => parseFailureObj text

-- ---------------------------------------------------------------------------
-- `_extract_by_agent`: provenance classification + payload recovery
-- ---------------------------------------------------------------------------

/-- A CrewAI `TaskOutput`-like fragment: a free-text role label, an optional
pre-parsed dict, and the raw text. -/
structure TaskO where
  agent : String
  json_dict : Option Json := none
  raw : String := ""

/-- `any(kw in agent_l for kw in agent_name_keywords)`. -/
def kwMatch (agentLower : List Char) (kws : List String) : Bool :=
  kws.any (fun kw => containsSub agentLower kw.toList)

/-- The last dict element of a parsed list (`dicts[-1]`). -/
def lastObjOf (l : List Json) : Option Json :=
  (l.filter (fun x => match x with | Json.obj _ => true | _ => false)).getLast?

/-- The payload produced for a matching task: prefer a non-empty
`json_dict`, else parse `raw`, demote a list to its last dict, and keep a
clear error dict otherwise. -/
def processPayload (t : TaskO) : Json :=
  match t.json_dict with
  | some (Json.obj l) => if ! l.isEmpty then Json.obj l else processRawPayload t
  | _ => processRawPayload t
where
  processRawPayload (t : TaskO) : Json :=
    match parseJsonFromRaw t.raw.toList with
    | Json.arr l =>
      match lastObjOf l with
      | some d => d
      | none => Json.obj [("error", Json.str "Parsed list without dicts")]
    | Json.obj l => Json.obj l
    | _ =>
      Json.obj [("error", Json.str "Could not parse task JSON"),
                ("raw_excerpt", Json.str (String.mk (t.raw.toList.take 400)))]

/-- `_extract_by_agent`: first task whose lower-cased, non-empty label
contains a keyword; its payload is returned; `{}` if none matches. -/
def extractByAgent (tasks : List TaskO) (kws : List String) : Json :=
  match tasks with
  | [] => Json.obj []
  | t :: rest =>
    let agentL := lowerStr t.agent.toList
    if agentL = [] then extractByAgent rest kws
    else if kwMatch agentL kws then processPayload t
    else extractByAgent rest kws

/-- The selection rule of `_extract_by_agent` in isolation: the first
fragment with a non-empty case-folded label containing some keyword. -/
def selectTask (tasks : List TaskO) (kws : List String) : Option TaskO :=
  tasks.find? (fun t =>
    let l := lowerStr t.agent.toList
    decide (¬ l = []) && kwMatch l kws)

-- ---------------------------------------------------------------------------
-- `_ensure_jira_fields` and its helpers
-- ---------------------------------------------------------------------------

/-- `.get(k)` truthiness (`if jira_dict.get(k):`); a missing key is falsy. -/
def truthyOpt : Option Json → Bool
  | some v => truthy v
  | none => false

/-- `jira_dict.get(k) is None`: absent key or an explicit JSON null. -/
def isNoneOrNull : Option Json → Bool
  | none => true
  | some Json.null => true
  | some _ => false

/-- The keyword list hard-coded in the raw-finding loop of
`_ensure_jira_fields`. -/
def jiraRawKeywords : List String := ["jira", "delivery planner", "project organizer"]

/-- The raw text of the first jira-matching task that has a non-empty raw
(the loop only breaks once `raw` is non-empty). -/
def findJiraRaw (tasks : List TaskO) : String :=
  match tasks.find? (fun t =>
      kwMatch (lowerStr t.agent.toList) jiraRawKeywords && t.raw ≠ "") with
  | some t => t.raw
  | none => ""

/-- `_extract_last_json_block_text`: last fenced block, else the last
balanced `{}` span, stripped. -/
def lastJsonBlockText (raw : List Char) : Option (List Char) :=
  let text := pyStrip raw
  match (findFences text).getLast? with
  | some content => some content
  | none => (scanPairs '{' '}' text).getLast?.map pyStrip

/-- `{**obj, **jira_dict, **{k: v for k, v in obj.items() if v}}`. -/
def mergeJira (ps jira : List (String × Json)) : List (String × Json) :=
  dinsertAll (dinsertAll (dinsertAll [] ps) jira)
    (ps.filter (fun p => truthy p.2))

/-- `re.search(r'"<key>"\s*:\s*"([^"]+)"', raw)`: the first position where
the quoted key is followed by a colon and a non-empty quoted value. -/
def keyStrSearch (key : List Char) : List Char → Option String
  | [] => none
  | c :: t =>
    (if key.isPrefixOf (c :: t) then
      let r1 := ((c :: t).drop key.length).dropWhile pySpace
      match r1 with
      | ':' :: r2 =>
        match r2.dropWhile pySpace with
        | '"' :: r4 =>
          let content := r4.takeWhile (· ≠ '"')
          if content.isEmpty then none
          else match r4.drop content.length with
            | '"' :: _ => some (String.mk content)
            | _ => none
        | _ => none
      | _ => none
    else none).orElse (fun _ => keyStrSearch key t)

/-- `re.search(r'"<key>"\s*:\s*(\d+)', raw)`: the first position where the
quoted key is followed by a colon and a digit run. -/
def keyNatSearch (key : List Char) : List Char → Option Nat
  | [] => none
  | c :: t =>
    (if key.isPrefixOf (c :: t) then
      let r1 := ((c :: t).drop key.length).dropWhile pySpace
      match r1 with
      | ':' :: r2 =>
        let r3 := r2.dropWhile pySpace
        let ds := r3.takeWhile isDigit
        if ds.isEmpty then none else some (digitsToNat ds)
      | _ => none
    else none).orElse (fun _ => keyNatSearch key t)

/-- The quoted literal name of the plan field, as it appears in the regex
`'"implementation_plan"\s*:\s*\[(.*?)\]'` (matched case-insensitively). -/
def planFieldLiteral : List Char := "\"implementation_plan\"".toList

/-- Content before the first `]`, if one exists (the lazy `(.*?)\]`). -/
def takeUntilRBracket (cs : List Char) : Option (List Char) :=
  if cs.any (· = ']') then some (cs.takeWhile (· ≠ ']')) else none

/-- `re.search` for the plan-array pattern: at each position try to match
the case-folded field literal, optional whitespace, a colon, optional
whitespace, `[`, and capture lazily up to the first `]`. -/
def findPlanArray : List Char → Option (List Char)
  | [] => none
  | c :: t =>
    (if lowerStr ((c :: t).take planFieldLiteral.length) = planFieldLiteral then
      let r1 := ((c :: t).drop planFieldLiteral.length).dropWhile pySpace
      match r1 with
      | ':' :: r2 =>
        match r2.dropWhile pySpace with
        | '[' :: r4 => takeUntilRBracket r4
        | _ => none
      | _ => none
    else none).orElse (fun _ => findPlanArray t)

/-- `re.findall(r'"([^"]+)"', inner)`: leftmost, non-overlapping matches of
a quote, one or more non-quote characters, and a closing quote.
Fuel-bounded: every step consumes at least one character. -/
def scanQuotedF : Nat → List Char → List String
  | 0, _ => []
  | fuel + 1, cs =>
    match cs with
    | [] => []
    | c :: t =>
      if c = '"' then
        let content := t.takeWhile (· ≠ '"')
        if content.isEmpty then scanQuotedF fuel t
        else
          match t.drop content.length with
          | '"' :: rest => String.mk content :: scanQuotedF fuel rest
          | _ => []
      else scanQuotedF fuel t

def scanQuoted (cs : List Char) : List String :=
  scanQuotedF (cs.length + 1) cs

/-- `_regex_extract_implementation_plan`. -/
def regexExtractImplementationPlan (raw : List Char) :
    List String × Option String :=
  match findPlanArray raw with
  | none => ([], none)
  | some inner =>
    let items := ((scanQuoted inner).map
        (fun s => String.mk (pyStrip s.toList))).filter (· ≠ "")
    if ! items.isEmpty then (items, none)
    else ([], if inner.isEmpty then none else some (String.mk (pyStrip inner)))

/-- The keys probed by the early-exit test of `_ensure_jira_fields`. -/
def jiraProbeKeys : List String :=
  ["implementation_plan", "jira_project_key", "epics_created_count",
   "stories_created_count"]

/-- The keys probed by the final any-field-recovered test. -/
def jiraFinalKeys : List String :=
  ["implementation_plan", "implementation_plan_str", "jira_project_key",
   "epics_created_count", "stories_created_count"]

/-- `_ensure_jira_fields`, translated step by step. -/
def ensureJiraFields (jira : List (String × Json)) (tasks : List TaskO) :
    List (String × Json) :=
  if (jiraProbeKeys.any (dmem jira)) ∧ truthyOpt (dget jira "implementation_plan") then
    jira
  else
    let raw := findJiraRaw tasks
    if raw = "" then jira
    else
      let rawL := raw.toList
      let jira1 :=
        match lastJsonBlockText rawL with
        | some block =>
          match jsonParse block with
          | some (Json.obj ps) => mergeJira ps jira
          | _ => jira
        | none => jira
      let jira2 :=
        if ! truthyOpt (dget jira1 "implementation_plan") then
          let (planList, planStr) := regexExtractImplementationPlan rawL
          if ! planList.isEmpty then
            dinsert jira1 "implementation_plan" (Json.arr (planList.map Json.str))
          else
            match planStr with
            | some s =>
              if s ≠ "" then dinsert jira1 "implementation_plan_str" (Json.str s)
              else jira1
            | none => jira1
        else jira1
      let jira3 :=
        if ! truthyOpt (dget jira2 "jira_project_key") then
          match keyStrSearch "\"jira_project_key\"".toList rawL with
          | some s => dinsert jira2 "jira_project_key" (Json.str s)
          | none => jira2
        else jira2
      let jira4 :=
        if isNoneOrNull (dget jira3 "epics_created_count") then
          match keyNatSearch "\"epics_created_count\"".toList rawL with
          | some n => dinsert jira3 "epics_created_count" (Json.num n)
          | none => jira3
        else jira3
      let jira5 :=
        if isNoneOrNull (dget jira4 "stories_created_count") then
          match keyNatSearch "\"stories_created_count\"".toList rawL with
          | some n => dinsert jira4 "stories_created_count" (Json.num n)
          | none => jira4
        else jira4
      if ! (jiraFinalKeys.any (fun k => truthyOpt (dget jira5 k))) then
        if dmem jira5 "error" then jira5
        else dinsert jira5 "error" (Json.str "Could not extract Jira payload")
      else jira5

-- ---------------------------------------------------------------------------
-- `LoadBundle` (steps/repository_creation/load_bundle.py + models.py)
-- ---------------------------------------------------------------------------

inductive ErrorCategory where
  | config | io | json | validation | tool | unknown
  deriving DecidableEq

/-- The Python exceptions that can escape the body of `LoadBundle` and reach
its single `except Exception` handler. -/
inductive PyExn where
  | fileNotFound | jsonDecode | valueErr | keyErr | typeErr | attrErr
  deriving DecidableEq

structure BuildError where
  origin : String
  category : ErrorCategory
  message : String
  retryable : Bool
  context : List (String × Option String)

structure FileSpec where
  path : String
  purpose : String
  spec : Option String
  status : String

structure WorkItem where
  path : String
  purpose : String
  spec : Option String

structure RepoRef where
  owner : String
  name : String
  default_branch : String := "main"
  created : Bool := false

structure DesignState where
  dd_id : Option String := none
  hld_id : Option String := none

structure CodeStructureState where
  root : String
  files : List FileSpec
  assumptions : List String := []

structure BuildState where
  app_name : String
  repo : RepoRef
  design : DesignState
  derived_requirements : List String := []
  code_structure : CodeStructureState
  pending_files : List WorkItem := []
  completed_files : List String := []
  assumptions : List String := []
  essential_missing : List WorkItem := []
  last_commit_sha : Option String := none
  errors : List BuildError := []
  report : List (String × Json) := []

/-- Runtime configuration read through `os.getenv`. -/
structure LoadEnv where
  bundlePath : Option String
  githubUsername : Option String

/-- pydantic v2 validation of a `str` field. -/
def asStr : Json → Option String
  | .str s => some s
  | _ => none

/-- pydantic v2 validation of an `Optional[str]` field. -/
def asOptStr : Json → Option (Option String)
  | .null => some none
  | .str s => some (some s)
  | _ => none

/-- pydantic v2 validation of a `List[str]` field. -/
def asStrList : Json → Option (List String)
  | .arr l =>
    l.foldr (fun x acc =>
      match x, acc with
      | Json.str s, some t => some (s :: t)
      | _, _ => none) (some [])
  | _ => none

/-- Lift a pydantic check: a failed validation raises `ValidationError`,
which is a `ValueError`. -/
def pyd {α : Type} (o : Option α) : Except PyExn α :=
  match o with
  | some a => Except.ok a
  | none => Except.error PyExn.valueErr

/-- `x = d.get(k) or {}`, then use of `x.get(...)`: a falsy value becomes an
empty dict; a truthy non-dict raises `AttributeError` at the `.get` call. -/
def orEmptyObj (o : Option Json) : Except PyExn (List (String × Json)) :=
  match o with
  | none => Except.ok []
  | some v =>
    if truthy v then
      match v with
      | Json.obj l => Except.ok l
      | _ => Except.error PyExn.attrErr
    else Except.ok []

/-- Python `len(x)` on a JSON-shaped value; numbers and booleans have no
length (`TypeError`). -/
def pyLen : Json → Except PyExn Nat
  | .str s => Except.ok s.length
  | .arr l => Except.ok l.length
  | .obj l => Except.ok l.length
  | _ => Except.error PyExn.typeErr

/-- `_validate_incoming`: bundle must be a dict with a truthy `app_name`
and a non-empty `code_structure.files` list (`code_structure` is defaulted
to `{}` when falsy; `.get` on a truthy non-dict raises `AttributeError`). -/
def validateIncoming (b : Json) : Except PyExn Unit :=
  match b with
  | Json.obj pairs =>
    if ! truthyOpt (dget pairs "app_name") then Except.error PyExn.valueErr
    else
      let csv :=
        match dget pairs "code_structure" with
        | some v => if truthy v then v else Json.obj []
        | none => Json.obj []
      match csv with
      | Json.obj csPairs =>
        match dget csPairs "files" with
        | some (Json.arr fl) =>
          if fl.isEmpty then Except.error PyExn.valueErr else Except.ok ()
        | _ => Except.error PyExn.valueErr
      | _ => Except.error PyExn.attrErr
  | _ => Except.error PyExn.valueErr

/-- `_files_to_specs`: `f["path"]` (KeyError when absent, TypeError when the
entry is not a dict), defaulted purpose, optional spec, and pydantic
validation of the `FileSpec` fields. -/
def filesToSpecs (fl : List Json) : Except PyExn (List FileSpec) :=
  fl.mapM (fun f =>
    match f with
    | Json.obj fp => do
      let pv ← match dget fp "path" with
        | some v => Except.ok v
        | none => Except.error PyExn.keyErr
      let path ← pyd (asStr pv)
      let purpose ← pyd (asStr ((dget fp "purpose").getD (Json.str "No purpose provided")))
      let spec ← pyd (asOptStr ((dget fp "spec").getD Json.null))
      Except.ok (FileSpec.mk path purpose spec "pending")
    | _ => Except.error PyExn.typeErr)

/-- The body of `LoadBundle` up to its `except Exception` handler. -/
def loadBundleE (env : LoadEnv) (fs : String → Option String) :
    Except PyExn BuildState := do
  let path ← match env.bundlePath with
    | some p => Except.ok p
    | none => Except.error PyExn.typeErr
  let content ← match fs path with
    | some c => Except.ok c
    | none => Except.error PyExn.fileNotFound
  let bundle ← match jsonParse content.toList with
    | some v => Except.ok v
    | none => Except.error PyExn.jsonDecode
  validateIncoming bundle
  let pairs ← match bundle with
    | Json.obj pairs => Except.ok pairs
    | _ => Except.error PyExn.valueErr
  let appNameJ := (dget pairs "app_name").getD Json.null
  let csInput := (dget pairs "code_structure").getD (Json.obj [])
  let csPairs ← match csInput with
    | Json.obj csPairs => Except.ok csPairs
    | _ => Except.error PyExn.attrErr
  let filesJ := (dget csPairs "files").getD (Json.arr [])
  let fl ← match filesJ with
    | Json.arr fl => Except.ok fl
    | _ => Except.error PyExn.typeErr
  let files_specs ← filesToSpecs fl
  let root ← pyd (asStr ((dget csPairs "root").getD appNameJ))
  let assumptions ← pyd (asStrList ((dget csPairs "assumptions").getD (Json.arr [])))
  let code_structure := CodeStructureState.mk root files_specs assumptions
  let ddObj ← orEmptyObj (dget pairs "dd")
  let dd_id ← pyd (asOptStr ((dget ddObj "detailed_doc_id").getD Json.null))
  let hldObj ← orEmptyObj (dget pairs "hld")
  let hld_id ← pyd (asOptStr ((dget hldObj "hl_doc_id").getD Json.null))
  let design := DesignState.mk dd_id hld_id
  let owner := env.githubUsername.getD "UNKNOWN_OWNER"
  let name ← pyd (asStr appNameJ)
  let repo := RepoRef.mk owner name "main" false
  let jiraObj ← orEmptyObj (dget pairs "jira")
  let implPlan := (dget jiraObj "implementation_plan").getD Json.null
  let assumptions2 ←
    if truthy implPlan then do
      let n ← pyLen implPlan
      Except.ok (assumptions ++ [s!"Jira plan items: {n}"])
    else Except.ok assumptions
  Except.ok
    { app_name := name
      repo := repo
      design := design
      code_structure := code_structure
      assumptions := assumptions2 }

/-- `str(e)` of the caught exception (the embedding abstracts the message
text; nothing downstream inspects it). -/
def exnMessage : PyExn → String
  | .fileNotFound => "Bundle not found"
  | .jsonDecode => "Expecting value"
  | .valueErr => "invalid value"
  | .keyErr => "path"
  | .typeErr => "type error"
  | .attrErr => "attribute error"

/-- `isinstance` classification in `_make_error_state`
(`JSONDecodeError` is tested before its superclass `ValueError`). -/
def classifyExn : PyExn → ErrorCategory
  | .fileNotFound => .io
  | .jsonDecode => .json
  | .valueErr => .validation
  | _ => .unknown

/-- `_make_error_state`: placeholder identity plus exactly one classified,
non-retryable error. -/
def makeErrorState (env : LoadEnv) (e : PyExn) : BuildState :=
  { app_name := "UNKNOWN_APP"
    repo := RepoRef.mk (env.githubUsername.getD "UNKNOWN_OWNER") "UNKNOWN_REPO" "main" false
    design := {}
    code_structure := CodeStructureState.mk "." [] []
    errors := [{ origin := "LoadBundle"
                 category := classifyExn e
                 message := exnMessage e
                 retryable := false
                 context :=
                   if e = PyExn.fileNotFound then [("path", env.bundlePath)] else [] }] }

/-- `LoadBundle`: the body with its single `except Exception` exit. -/
def LoadBundle (env : LoadEnv) (fs : String → Option String) : BuildState :=
  match loadBundleE env fs with
  | .ok st => st
  | .error e => makeErrorState env e

-- ---------------------------------------------------------------------------
-- Specification-side definitions used to state the claims
-- ---------------------------------------------------------------------------

/-- One step of the reference balance automaton: the same string/escape
transitions as `scan_pairs`, with a plain depth counter that fails (`none`)
on a close delimiter at depth zero. -/
def balStep (openc closec : Char) :
    Option (Nat × Bool × Bool) → Char → Option (Nat × Bool × Bool)
  | none, _ => none
  | some (d, inS, esc), ch =>
    if inS then
      if esc then some (d, true, false)
      else if ch = '\\' then some (d, true, true)
      else if ch = '"' then some (d, false, false)
      else some (d, true, false)
    else if ch = '"' then some (d, true, false)
    else if ch = openc then some (d + 1, false, false)
    else if ch = closec then
      match d with
      | 0 => none
      | d + 1 => some (d, false, false)
    else some (d, false, false)

/-- Run the balance automaton over a span from the initial state. -/
def runBal (openc closec : Char) (cs : List Char) : Option (Nat × Bool × Bool) :=
  cs.foldl (balStep openc closec) (some (0, false, false))

/-- A span is fully closed: scanning it string-aware never over-closes and
ends at depth zero outside any string literal. -/
def balancedSpan (openc closec : Char) (sp : List Char) : Bool :=
  runBal openc closec sp = some (0, false, false)

/-- Is the value a JSON object or array (the shapes the spec's
`ExtractedPayload` success variant allows)? -/
def isObjOrArr : Json → Bool
  | .obj _ => true
  | .arr _ => true
  | _ => false

/-- Is the value a JSON object (a Python dict)? -/
def isObjJ : Json → Bool
  | .obj _ => true
  | _ => false

/-- Does `_extract_by_agent` use the pre-parsed `json_dict` for this task
(`isinstance(jd, dict) and jd`)? -/
def jdUsable (t : TaskO) : Bool :=
  match t.json_dict with
  | some (Json.obj l) => ! l.isEmpty
  | _ => false

/-- Unique keys, the invariant CPython dicts always satisfy. -/
def NodupKeys (l : List (String × Json)) : Prop :=
  (l.map Prod.fst).Nodup

/-- The value the *last* occurrence of a key in an update sequence carries
(later `{**...}` entries overwrite earlier ones). -/
def lookupLastV : List (String × Json) → String → Option Json
  | [], _ => none
  | p :: t, k =>
    match lookupLastV t k with
    | some v => some v
    | none => if p.1 = k then some p.2 else none

-- Concrete fixtures for counterexamples and witnesses.

/-- A jira-labeled task whose raw text carries a fresh non-empty
`jira_project_key`. -/
def c3task : TaskO :=
  { agent := "Jira Delivery Planner", raw := "\x7b\"jira_project_key\": \"B\"\x7d" }

/-- A bundle environment pointing at `bundle.json`. -/
def c4env : LoadEnv := { bundlePath := some "bundle.json", githubUsername := some "me" }

/-- Well-formed bundle with `app_name`, a non-empty file list, and a
wrong-typed `assumptions` field. -/
def c4bundleText : String :=
  "\x7b\"app_name\": \"demo\", \"code_structure\": \x7b\"files\": [\x7b\"path\": \"a.py\"\x7d], \"assumptions\": 5\x7d\x7d"

def c4fs : String → Option String :=
  fun p => if p = "bundle.json" then some c4bundleText else none

/-- A fragment with an empty role label but a non-empty payload. -/
def c8t0 : TaskO := { agent := "", json_dict := some (Json.obj [("x", Json.num 1)]) }

/-- A later fragment with a non-empty role label. -/
def c8t1 : TaskO := { agent := "a", json_dict := some (Json.obj [("y", Json.num 2)]) }

/-- A jira-labeled task with a plan array embedded in prose. -/
def c9task : TaskO :=
  { agent := "Jira Expert",
    raw := "Here: \"implementation_plan\": [\"step1\",\"step2\"] done" }

/-- A task whose raw parses to a JSON array containing one dict. -/
def c10task : TaskO := { agent := "Code Architect", raw := "[1, \x7b\"a\": 1\x7d]" }

-- ---------------------------------------------------------------------------
-- Theorems
-- ---------------------------------------------------------------------------

theorem runBal_snoc (o c : Char) (l : List Char) (ch : Char) :
    runBal o c (l ++ [ch]) = balStep o c (runBal o c l) ch := by
  simp [runBal, List.foldl_append]

/-- Scanning inside a string literal: characters that are neither a quote
nor a backslash keep the scanner in the string state and are appended to
the open span; the closing quote and delimiter then finish the span. -/
theorem scanAux_in_string (s : List Char) :
    ∀ acc : List Char, (∀ ch ∈ s, ch ≠ '"' ∧ ch ≠ '\\') →
    scanAux '{' '}' (s ++ ['"', '}']) ⟨1, some acc, true, false⟩ =
      [acc.reverse ++ s ++ ['"', '}']] := by
  induction s with
  | nil =>
    intro acc _
    have h1 : scanAux '{' '}' ([] ++ ['"', '}']) ⟨1, some acc, true, false⟩ =
        [('}' :: '"' :: acc).reverse] := rfl
    rw [h1]
    simp
  | cons c t ih =>
    intro acc hs
    have hc := hs c (List.mem_cons_self _ _)
    have hstep : scanStep '{' '}' c ⟨1, some acc, true, false⟩ =
        (⟨1, some (c :: acc), true, false⟩, none) := by
      simp [scanStep, hc.1, hc.2]
    have h2 : scanAux '{' '}' ((c :: t) ++ ['"', '}']) ⟨1, some acc, true, false⟩ =
        scanAux '{' '}' (t ++ ['"', '}']) ⟨1, some (c :: acc), true, false⟩ := by
      rw [List.cons_append, scanAux, hstep]
    rw [h2, ih (c :: acc) (fun ch hch => hs ch (List.mem_cons_of_mem _ hch))]
    simp

/-- C6: the balanced-span scanner ignores delimiter characters inside
double-quoted string literals, tracks an escape flag so that an escaped
quote does not end the string, and on `{"a": "\x7d"}` returns exactly one span
covering the whole literal. -/
theorem scanner_ignores_quoted_delimiters :
    (∀ s : List Char, (∀ ch ∈ s, ch ≠ '"' ∧ ch ≠ '\\') →
      scanPairs '{' '}' ('{' :: '"' :: (s ++ ['"', '}'])) =
        ['{' :: '"' :: (s ++ ['"', '}'])]) ∧
    scanPairs '{' '}' "\x7b\"a\": \"\x7d\"\x7d".toList = ["\x7b\"a\": \"\x7d\"\x7d".toList] ∧
    scanPairs '{' '}' "\x7b\"a\": \"\\\"\x7d\"\x7d".toList = ["\x7b\"a\": \"\\\"\x7d\"\x7d".toList] := by
  refine ⟨?_, by decide, by decide⟩
  intro s hs
  have h1 : scanPairs '{' '}' ('{' :: '"' :: (s ++ ['"', '}'])) =
      scanAux '{' '}' (s ++ ['"', '}']) ⟨1, some ['"', '{'], true, false⟩ := rfl
  rw [h1, scanAux_in_string s ['"', '{'] hs]
  simp

/-- Witness for the universally quantified part of C6, at `s = ["\x7d"]`. -/
theorem scanner_ignores_quoted_delimiters_witness :
    scanPairs '{' '}' ('{' :: '"' :: (['}'] ++ ['"', '}'])) =
      ['{' :: '"' :: (['}'] ++ ['"', '}'])] :=
  scanner_ignores_quoted_delimiters.1 ['}'] (by decide)

theorem runBal_reverse_cons (o c ch : Char) (acc : List Char) :
    runBal o c ((ch :: acc).reverse) = balStep o c (runBal o c acc.reverse) ch := by
  rw [List.reverse_cons, runBal_snoc]

/-- One scanner step preserves the balance invariant, and any span it emits
is fully closed. -/
theorem scanStep_inv (o c ch : Char) (st : ScanState)
    (hnone : st.cur = none → st.depth = 0)
    (hsome : ∀ acc, st.cur = some acc →
      runBal o c acc.reverse = some (st.depth, st.inString, st.escape) ∧
        1 ≤ st.depth) :
    ∀ st' em, scanStep o c ch st = (st', em) →
    ((st'.cur = none → st'.depth = 0) ∧
     (∀ acc, st'.cur = some acc →
        runBal o c acc.reverse = some (st'.depth, st'.inString, st'.escape) ∧
          1 ≤ st'.depth) ∧
     (∀ sp, em = some sp → balancedSpan o c sp = true)) := by
  intro st' em hstep
  obtain ⟨depth, cur, inS, esc⟩ := st
  simp only at hnone hsome
  cases cur with
  | none =>
    have hd0 : depth = 0 := hnone rfl
    subst hd0
    by_cases hin : inS = true
    · subst hin
      by_cases hesc : esc = true
      · subst hesc
        have h : scanStep o c ch ⟨0, none, true, true⟩ = (⟨0, none, true, false⟩, none) := by
          simp [scanStep]
        rw [h] at hstep
        injection hstep with hA hB
        subst hA
        subst hB
        exact ⟨fun _ => rfl, (by intro acc hacc; cases hacc), (by intro sp hsp; cases hsp)⟩
      · have hef : esc = false := eq_false_of_ne_true hesc
        subst hef
        by_cases hbs : ch = '\\'
        · have h : scanStep o c ch ⟨0, none, true, false⟩ = (⟨0, none, true, true⟩, none) := by
            simp [scanStep, hbs]
          rw [h] at hstep
          injection hstep with hA hB
          subst hA
          subst hB
          exact ⟨fun _ => rfl, (by intro acc hacc; cases hacc), (by intro sp hsp; cases hsp)⟩
        · by_cases hq : ch = '"'
          · have h : scanStep o c ch ⟨0, none, true, false⟩ = (⟨0, none, false, false⟩, none) := by
              simp [scanStep, hbs, hq]
            rw [h] at hstep
            injection hstep with hA hB
            subst hA
            subst hB
            exact ⟨fun _ => rfl, (by intro acc hacc; cases hacc), (by intro sp hsp; cases hsp)⟩
          · have h : scanStep o c ch ⟨0, none, true, false⟩ = (⟨0, none, true, false⟩, none) := by
              simp [scanStep, hbs, hq]
            rw [h] at hstep
            injection hstep with hA hB
            subst hA
            subst hB
            exact ⟨fun _ => rfl, (by intro acc hacc; cases hacc), (by intro sp hsp; cases hsp)⟩
    · have hif : inS = false := eq_false_of_ne_true hin
      subst hif
      by_cases hq : ch = '"'
      · have h : scanStep o c ch ⟨0, none, false, esc⟩ = (⟨0, none, true, false⟩, none) := by
          simp [scanStep, hq]
        rw [h] at hstep
        injection hstep with hA hB
        subst hA
        subst hB
        exact ⟨fun _ => rfl, (by intro acc hacc; cases hacc), (by intro sp hsp; cases hsp)⟩
      · by_cases hop : ch = o
        · have hq2 : ¬(o = '"') := hop ▸ hq
          have h : scanStep o c ch ⟨0, none, false, esc⟩ = (⟨1, some [ch], false, false⟩, none) := by
            simp [scanStep, hq, hop, hq2]
          rw [h] at hstep
          injection hstep with hA hB
          subst hA
          subst hB
          refine ⟨(by intro hc; cases hc), ?_, (by intro sp hsp; cases hsp)⟩
          intro acc hacc
          cases hacc
          constructor
          · show runBal o c [ch] = some (1, false, false)
            simp [runBal, balStep, hq, hop, hq2]
          · exact Nat.le_refl 1
        · by_cases hcl : ch = c
          · have hq3 : ¬(c = '"') := hcl ▸ hq
            have hop3 : ¬(c = o) := hcl ▸ hop
            have h : scanStep o c ch ⟨0, none, false, esc⟩ = (⟨0, none, false, false⟩, none) := by
              simp [scanStep, hq, hop, hcl, hq3, hop3]
            rw [h] at hstep
            injection hstep with hA hB
            subst hA
            subst hB
            exact ⟨fun _ => rfl, (by intro acc hacc; cases hacc), (by intro sp hsp; cases hsp)⟩
          · have h : scanStep o c ch ⟨0, none, false, esc⟩ = (⟨0, none, false, false⟩, none) := by
              simp [scanStep, hq, hop, hcl]
            rw [h] at hstep
            injection hstep with hA hB
            subst hA
            subst hB
            exact ⟨fun _ => rfl, (by intro acc hacc; cases hacc), (by intro sp hsp; cases hsp)⟩
  | some acc0 =>
    obtain ⟨hrun, hdep⟩ := hsome acc0 rfl
    by_cases hin : inS = true
    · subst hin
      by_cases hesc : esc = true
      · subst hesc
        have h : scanStep o c ch ⟨depth, some acc0, true, true⟩ =
            (⟨depth, some (ch :: acc0), true, false⟩, none) := by
          simp [scanStep]
        rw [h] at hstep
        injection hstep with hA hB
        subst hA
        subst hB
        refine ⟨(by intro hc; cases hc), ?_, (by intro sp hsp; cases hsp)⟩
        intro acc hacc
        cases hacc
        refine ⟨?_, hdep⟩
        rw [runBal_reverse_cons, hrun]
        simp [balStep]
      · have hef : esc = false := eq_false_of_ne_true hesc
        subst hef
        by_cases hbs : ch = '\\'
        · have h : scanStep o c ch ⟨depth, some acc0, true, false⟩ =
              (⟨depth, some (ch :: acc0), true, true⟩, none) := by
            simp [scanStep, hbs]
          rw [h] at hstep
          injection hstep with hA hB
          subst hA
          subst hB
          refine ⟨(by intro hc; cases hc), ?_, (by intro sp hsp; cases hsp)⟩
          intro acc hacc
          cases hacc
          refine ⟨?_, hdep⟩
          rw [runBal_reverse_cons, hrun]
          simp [balStep, hbs]
        · by_cases hq : ch = '"'
          · have h : scanStep o c ch ⟨depth, some acc0, true, false⟩ =
                (⟨depth, some (ch :: acc0), false, false⟩, none) := by
              simp [scanStep, hbs, hq]
            rw [h] at hstep
            injection hstep with hA hB
            subst hA
            subst hB
            refine ⟨(by intro hc; cases hc), ?_, (by intro sp hsp; cases hsp)⟩
            intro acc hacc
            cases hacc
            refine ⟨?_, hdep⟩
            rw [runBal_reverse_cons, hrun]
            simp [balStep, hbs, hq]
          · have h : scanStep o c ch ⟨depth, some acc0, true, false⟩ =
                (⟨depth, some (ch :: acc0), true, false⟩, none) := by
              simp [scanStep, hbs, hq]
            rw [h] at hstep
            injection hstep with hA hB
            subst hA
            subst hB
            refine ⟨(by intro hc; cases hc), ?_, (by intro sp hsp; cases hsp)⟩
            intro acc hacc
            cases hacc
            refine ⟨?_, hdep⟩
            rw [runBal_reverse_cons, hrun]
            simp [balStep, hbs, hq]
    · have hif : inS = false := eq_false_of_ne_true hin
      subst hif
      by_cases hq : ch = '"'
      · have h : scanStep o c ch ⟨depth, some acc0, false, esc⟩ =
            (⟨depth, some (ch :: acc0), true, false⟩, none) := by
          simp [scanStep, hq]
        rw [h] at hstep
        injection hstep with hA hB
        subst hA
        subst hB
        refine ⟨(by intro hc; cases hc), ?_, (by intro sp hsp; cases hsp)⟩
        intro acc hacc
        cases hacc
        refine ⟨?_, hdep⟩
        rw [runBal_reverse_cons, hrun]
        simp [balStep, hq]
      · by_cases hop : ch = o
        · have hq2 : ¬(o = '"') := hop ▸ hq
          have h : scanStep o c ch ⟨depth, some acc0, false, esc⟩ =
              (⟨depth + 1, some (ch :: acc0), false, false⟩, none) := by
            simp [scanStep, hq, hop, hq2]
          rw [h] at hstep
          injection hstep with hA hB
          subst hA
          subst hB
          refine ⟨(by intro hc; cases hc), ?_, (by intro sp hsp; cases hsp)⟩
          intro acc hacc
          cases hacc
          constructor
          · rw [runBal_reverse_cons, hrun]
            simp [balStep, hq, hop, hq2]
          · exact Nat.succ_le_succ (Nat.zero_le _)
        · by_cases hcl : ch = c
          · have hq3 : ¬(c = '"') := hcl ▸ hq
            have hop3 : ¬(c = o) := hcl ▸ hop
            cases hd : depth with
            | zero => omega
            | succ d =>
              subst hd
              by_cases hd0 : d = 0
              · subst hd0
                have h : scanStep o c ch ⟨0 + 1, some acc0, false, esc⟩ =
                    (⟨0, none, false, false⟩, some ((ch :: acc0).reverse)) := by
                  simp [scanStep, hq, hop, hcl, hq3, hop3]
                rw [h] at hstep
                injection hstep with hA hB
                subst hA
                subst hB
                refine ⟨fun _ => rfl, (by intro acc hacc; cases hacc), ?_⟩
                intro sp hsp
                cases hsp
                have hb : runBal o c ((ch :: acc0).reverse) = some (0, false, false) := by
                  rw [runBal_reverse_cons, hrun]
                  simp [balStep, hq, hop, hcl, hq3, hop3]
                simpa [balancedSpan] using hb
              · have h : scanStep o c ch ⟨d + 1, some acc0, false, esc⟩ =
                    (⟨d, some (ch :: acc0), false, false⟩, none) := by
                  simp [scanStep, hq, hop, hcl, hd0, hq3, hop3]
                rw [h] at hstep
                injection hstep with hA hB
                subst hA
                subst hB
                refine ⟨(by intro hc2; cases hc2), ?_, (by intro sp hsp; cases hsp)⟩
                intro acc hacc
                cases hacc
                constructor
                · rw [runBal_reverse_cons, hrun]
                  simp [balStep, hq, hop, hcl, hq3, hop3]
                · show 1 ≤ d
                  omega
          · have h : scanStep o c ch ⟨depth, some acc0, false, esc⟩ =
                (⟨depth, some (ch :: acc0), false, false⟩, none) := by
              simp [scanStep, hq, hop, hcl]
            rw [h] at hstep
            injection hstep with hA hB
            subst hA
            subst hB
            refine ⟨(by intro hc2; cases hc2), ?_, (by intro sp hsp; cases hsp)⟩
            intro acc hacc
            cases hacc
            refine ⟨?_, hdep⟩
            rw [runBal_reverse_cons, hrun]
            simp [balStep, hq, hop, hcl]

/-- Every span the scanner emits from an invariant-respecting state is
fully closed. -/
theorem scanAux_balanced (o c : Char) (text : List Char) :
    ∀ st : ScanState,
    (st.cur = none → st.depth = 0) →
    (∀ acc, st.cur = some acc →
      runBal o c acc.reverse = some (st.depth, st.inString, st.escape) ∧
        1 ≤ st.depth) →
    ∀ sp ∈ scanAux o c text st, balancedSpan o c sp = true := by
  induction text with
  | nil =>
    intro st _ _ sp hsp
    simp [scanAux] at hsp
  | cons ch rest ih =>
    intro st hnone hsome sp hsp
    cases hstep : scanStep o c ch st with
    | mk st' em =>
      obtain ⟨h1, h2, h3⟩ := scanStep_inv o c ch st hnone hsome st' em hstep
      rw [scanAux, hstep] at hsp
      cases em with
      | some sp0 =>
        rcases List.mem_cons.mp hsp with hsp1 | hsp2
        · subst hsp1
          exact h3 sp rfl
        · exact ih st' h1 h2 sp hsp2
      | none => exact ih st' h1 h2 sp hsp

/-- C7: the scanner never emits a partially closed span — every emitted span
is fully balanced under the string-aware automaton — and the unbalanced
input `{"a": 1` yields no spans at all. -/
theorem scanner_no_partial_spans :
    (∀ (o c : Char) (text : List Char),
      ∀ sp ∈ scanPairs o c text, balancedSpan o c sp = true) ∧
    scanPairs '{' '}' "\x7b\"a\": 1".toList = [] := by
  refine ⟨?_, by decide⟩
  intro o c text sp hsp
  exact scanAux_balanced o c text ⟨0, none, false, false⟩ (fun _ => rfl)
    (by intro acc h; cases h) sp hsp

/-- Witness for C7 at a concrete emitted span: `{}` is reported and is
balanced. -/
theorem scanner_no_partial_spans_witness :
    balancedSpan '{' '}' "\x7b\x7d".toList = true :=
  scanner_no_partial_spans.1 '{' '}' "\x7b\x7d".toList "\x7b\x7d".toList (by decide)

-- ---------------------------------------------------------------------------
-- C1, C2, C5: the fallback chain of `_parse_json_from_raw`
-- ---------------------------------------------------------------------------

theorem isEmpty_false_of_ne_nil {raw : List Char} (h : raw ≠ []) :
    raw.isEmpty = false := by
  cases raw with
  | nil => exact absurd rfl h
  | cons a t => rfl

/-- C1 (amended): the chain of `_parse_json_from_raw` — empty guard, fenced
result kept only when truthy, then pooled balanced spans in reverse order,
then the whole normalized text, then the failure dictionary whose excerpt is
the last 400 characters of the *normalized* text. -/
theorem parser_chain (raw : List Char) :
    (raw = [] →
      parseJsonFromRaw raw = Json.obj [("error", Json.str "empty task output")]) ∧
    (∀ v, raw ≠ [] → extractFencedJson raw = some v → truthy v = true →
      parseJsonFromRaw raw = v) ∧
    (raw ≠ [] → extractFencedJson raw = none →
      parseJsonFromRaw raw = parseJsonFromRaw.parseJsonFromRawFallback raw) ∧
    (∀ v, raw ≠ [] → extractFencedJson raw = some v → truthy v = false →
      parseJsonFromRaw raw = parseJsonFromRaw.parseJsonFromRawFallback raw) ∧
    (∀ v, firstParse ((candidatesOf (normalizeText raw)).reverse) = some v →
      parseJsonFromRaw.parseJsonFromRawFallback raw = v) ∧
    (firstParse ((candidatesOf (normalizeText raw)).reverse) = none →
      ∀ v, jsonParse (normalizeText raw) = some v →
        parseJsonFromRaw.parseJsonFromRawFallback raw = v) ∧
    (firstParse ((candidatesOf (normalizeText raw)).reverse) = none →
      jsonParse (normalizeText raw) = none →
      parseJsonFromRaw.parseJsonFromRawFallback raw =
        parseFailureObj (normalizeText raw)) := by
  refine ⟨?_, ?_, ?_, ?_, ?_, ?_, ?_⟩
  · intro h
    subst h
    rfl
  · intro v hne hf ht
    simp [parseJsonFromRaw, isEmpty_false_of_ne_nil hne, hf, ht]
  · intro hne hf
    simp [parseJsonFromRaw, isEmpty_false_of_ne_nil hne, hf]
  · intro v hne hf ht
    simp [parseJsonFromRaw, isEmpty_false_of_ne_nil hne, hf, ht]
  · intro v h
    simp [parseJsonFromRaw.parseJsonFromRawFallback, h]
  · intro h v hj
    simp [parseJsonFromRaw.parseJsonFromRawFallback, h, hj]
  · intro h hj
    simp [parseJsonFromRaw.parseJsonFromRawFallback, h, hj]

/-- C1 counterexample: a fenced block that parses successfully to `{}` is a
*success* of the first chain step, yet the parser keeps searching (the code
tests the parsed value for truthiness, not the parse for success) and
returns the later `[1]` instead of stopping. -/
theorem parser_chain_counterexample :
    extractFencedJson "```json\n\x7b\x7d\n```\n[1]".toList = some (Json.obj []) ∧
    parseJsonFromRaw "```json\n\x7b\x7d\n```\n[1]".toList = Json.arr [Json.num 1] ∧
    Json.arr [Json.num 1] ≠ Json.obj [] :=
  ⟨rfl, rfl, fun h => Json.noConfusion h⟩

/-- Witness for C1 (amended) at a fenced block with a truthy payload. -/
theorem parser_chain_witness :
    parseJsonFromRaw "```json\n\x7b\"a\": 1\x7d\n```".toList =
      Json.obj [("a", Json.num 1)] :=
  (parser_chain _).2.1 (Json.obj [("a", Json.num 1)]) (by decide) rfl rfl

/-- C2 (amended): when no fenced block yields a truthy parse, the parser
tries all balanced `[]` spans most-recently-first and only then all
balanced `{}` spans most-recently-first (the pool lists `{}` spans first
and is traversed reversed), returning the first candidate that parses. -/
theorem candidate_pool_order (raw : List Char) (v : Json)
    (h1 : raw ≠ [])
    (h2 : ∀ w, extractFencedJson raw = some w → truthy w = false)
    (h3 : firstParse ((scanPairs '[' ']' (normalizeText raw)).reverse ++
        (scanPairs '{' '}' (normalizeText raw)).reverse) = some v) :
    parseJsonFromRaw raw = v := by
  have hc : (candidatesOf (normalizeText raw)).reverse =
      (scanPairs '[' ']' (normalizeText raw)).reverse ++
        (scanPairs '{' '}' (normalizeText raw)).reverse := by
    simp [candidatesOf]
  cases hf : extractFencedJson raw with
  | none =>
    simp [parseJsonFromRaw, isEmpty_false_of_ne_nil h1, hf,
      parseJsonFromRaw.parseJsonFromRawFallback, hc, h3]
  | some w =>
    have hw := h2 w hf
    simp [parseJsonFromRaw, isEmpty_false_of_ne_nil h1, hf, hw,
      parseJsonFromRaw.parseJsonFromRawFallback, hc, h3]

/-- C2 counterexample: with a `[]` span opened *before* a `{}` span and both
valid, most-recently-opened-first would return the object; the code returns
the array because all bracket candidates are tried before any brace
candidate. -/
theorem candidate_pool_order_counterexample :
    findFences "[1] \x7b\"a\": 2\x7d".toList = [] ∧
    scanPairs '{' '}' (normalizeText "[1] \x7b\"a\": 2\x7d".toList) =
      ["\x7b\"a\": 2\x7d".toList] ∧
    scanPairs '[' ']' (normalizeText "[1] \x7b\"a\": 2\x7d".toList) = ["[1]".toList] ∧
    jsonParse "\x7b\"a\": 2\x7d".toList = some (Json.obj [("a", Json.num 2)]) ∧
    parseJsonFromRaw "[1] \x7b\"a\": 2\x7d".toList = Json.arr [Json.num 1] ∧
    Json.arr [Json.num 1] ≠ Json.obj [("a", Json.num 2)] :=
  ⟨rfl, rfl, rfl, rfl, rfl, fun h => Json.noConfusion h⟩

/-- Witness for C2 (amended) at the two-span input. -/
theorem candidate_pool_order_witness :
    parseJsonFromRaw "[1] \x7b\"a\": 2\x7d".toList = Json.arr [Json.num 1] :=
  candidate_pool_order _ _ (by decide)
    (fun w hw => by
      rw [show extractFencedJson "[1] \x7b\"a\": 2\x7d".toList = none from rfl] at hw
      exact Option.noConfusion hw)
    rfl

/-- C5 (amended): the parser is total — for every input it returns the
empty-input failure dict, a truthy fenced parse, a pooled-candidate parse, a
whole-text parse, or the final failure dictionary; no other outcome exists. -/
theorem parser_total (raw : List Char) :
    parseJsonFromRaw raw = Json.obj [("error", Json.str "empty task output")] ∨
    (∃ v, extractFencedJson raw = some v ∧ truthy v = true ∧
      parseJsonFromRaw raw = v) ∨
    (∃ v, firstParse ((candidatesOf (normalizeText raw)).reverse) = some v ∧
      parseJsonFromRaw raw = v) ∨
    (∃ v, jsonParse (normalizeText raw) = some v ∧ parseJsonFromRaw raw = v) ∨
    parseJsonFromRaw raw = parseFailureObj (normalizeText raw) := by
  by_cases hraw : raw = []
  · left
    subst hraw
    rfl
  · have hne' := isEmpty_false_of_ne_nil hraw
    have fallbackCases :
        parseJsonFromRaw raw = parseJsonFromRaw.parseJsonFromRawFallback raw →
        (∃ v, firstParse ((candidatesOf (normalizeText raw)).reverse) = some v ∧
          parseJsonFromRaw raw = v) ∨
        (∃ v, jsonParse (normalizeText raw) = some v ∧ parseJsonFromRaw raw = v) ∨
        parseJsonFromRaw raw = parseFailureObj (normalizeText raw) := by
      intro hred
      cases hfp : firstParse ((candidatesOf (normalizeText raw)).reverse) with
      | some v =>
        left
        exact ⟨v, rfl, by
          rw [hred]; simp [parseJsonFromRaw.parseJsonFromRawFallback, hfp]⟩
      | none =>
        cases hjp : jsonParse (normalizeText raw) with
        | some v =>
          right; left
          exact ⟨v, rfl, by
            rw [hred]; simp [parseJsonFromRaw.parseJsonFromRawFallback, hfp, hjp]⟩
        | none =>
          right; right
          rw [hred]
          simp [parseJsonFromRaw.parseJsonFromRawFallback, hfp, hjp]
    cases hf : extractFencedJson raw with
    | some w =>
      by_cases ht : truthy w = true
      · right; left
        exact ⟨w, rfl, ht, by simp [parseJsonFromRaw, hne', hf, ht]⟩
      · have htf : truthy w = false := eq_false_of_ne_true ht
        have hred : parseJsonFromRaw raw = parseJsonFromRaw.parseJsonFromRawFallback raw := by
          simp [parseJsonFromRaw, hne', hf, htf]
        rcases fallbackCases hred with h | h | h
        · right; right; left; exact h
        · right; right; right; left; exact h
        · right; right; right; right; exact h
    | none =>
      have hred : parseJsonFromRaw raw = parseJsonFromRaw.parseJsonFromRawFallback raw := by
        simp [parseJsonFromRaw, hne', hf]
      rcases fallbackCases hred with h | h | h
      · right; right; left; exact h
      · right; right; right; left; exact h
      · right; right; right; right; exact h

/-- C5 counterexample: input `3` parses to the scalar `3`, which is neither
an object, nor an array, nor a failure dictionary — the spec's
"object or array" typing of successful extraction is too narrow. -/
theorem parser_total_counterexample :
    parseJsonFromRaw "3".toList = Json.num 3 ∧
    isObjOrArr (Json.num 3) = false ∧
    parseJsonFromRaw "3".toList ≠ parseFailureObj (normalizeText "3".toList) ∧
    parseJsonFromRaw "3".toList ≠
      Json.obj [("error", Json.str "empty task output")] :=
  ⟨rfl, rfl, fun h => Json.noConfusion h, fun h => Json.noConfusion h⟩

-- ---------------------------------------------------------------------------
-- C8, C10: provenance classification and per-role payloads
-- ---------------------------------------------------------------------------

/-- C8 (amended): `_extract_by_agent` returns `{}` when no fragment with a
*non-empty* case-folded label contains a keyword, and otherwise returns the
payload of the first such fragment (fragments with empty labels are skipped
by the `if not agent_l: continue` guard even when a keyword is the empty
string). -/
theorem extract_refines_select (ts : List TaskO) (kws : List String) :
    extractByAgent ts kws =
      match selectTask ts kws with
      | none => Json.obj []
      | some t => processPayload t := by
  induction ts with
  | nil => rfl
  | cons t rest ih =>
    by_cases heq : lowerStr t.agent.data = []
    · rw [show extractByAgent (t :: rest) kws = extractByAgent rest kws by
        simp [extractByAgent, heq]]
      rw [show selectTask (t :: rest) kws = selectTask rest kws by
        simp [selectTask, List.find?, heq]]
      exact ih
    · by_cases hk : kwMatch (lowerStr t.agent.data) kws = true
      · rw [show extractByAgent (t :: rest) kws = processPayload t by
          simp [extractByAgent, heq, hk]]
        rw [show selectTask (t :: rest) kws = some t by
          simp [selectTask, List.find?, heq, hk]]
      · have hk' : kwMatch (lowerStr t.agent.data) kws = false :=
          eq_false_of_ne_true hk
        rw [show extractByAgent (t :: rest) kws = extractByAgent rest kws by
          simp [extractByAgent, heq, hk']]
        rw [show selectTask (t :: rest) kws = selectTask rest kws by
          simp [selectTask, List.find?, heq, hk']]
        exact ih

/-- C8 counterexample: with keyword set `{""}` the first fragment's folded
label `""` contains the keyword as a substring, so the claim selects it; the
code skips empty labels and selects the second fragment instead. -/
theorem extract_refines_select_counterexample :
    containsSub (lowerStr c8t0.agent.toList) "".toList = true ∧
    c8t0.json_dict = some (Json.obj [("x", Json.num 1)]) ∧
    extractByAgent [c8t0, c8t1] [""] = Json.obj [("y", Json.num 2)] ∧
    Json.obj [("y", Json.num 2)] ≠ Json.obj [("x", Json.num 1)] := by
  refine ⟨rfl, rfl, rfl, ?_⟩
  intro h
  injection h with h1
  injection h1 with h2 h3
  injection h2 with h4 h5
  exact absurd h4 (by decide)

theorem lastObjOf_isObj (l : List Json) (d : Json) (h : lastObjOf l = some d) :
    isObjJ d = true := by
  have hx : d ∈ (l.filter
      (fun x => match x with | Json.obj _ => true | _ => false)).getLast? := by
    unfold lastObjOf at h
    exact Option.mem_def.mpr h
  obtain ⟨hne, heq⟩ := List.mem_getLast?_eq_getLast hx
  have hm : d ∈ l.filter (fun x => match x with | Json.obj _ => true | _ => false) := by
    rw [heq]
    exact List.getLast_mem hne
  have hp := (List.mem_filter.mp hm).2
  cases d <;> simpa [isObjJ] using hp

theorem processRawPayload_isObj (t : TaskO) :
    isObjJ (processPayload.processRawPayload t) = true := by
  unfold processPayload.processRawPayload
  cases h : parseJsonFromRaw t.raw.toList with
  | arr l =>
    show isObjJ (match lastObjOf l with
      | some d => d
      | none => Json.obj [("error", Json.str "Parsed list without dicts")]) = true
    cases hl : lastObjOf l with
    | some d => simpa using lastObjOf_isObj l d hl
    | none => rfl
  | obj l => rfl
  | null => rfl
  | bool b => rfl
  | num i => rfl
  | numF s => rfl
  | str s => rfl

theorem processPayload_isObj (t : TaskO) : isObjJ (processPayload t) = true := by
  unfold processPayload
  cases hj : t.json_dict with
  | none => exact processRawPayload_isObj t
  | some v =>
    cases v with
    | obj l =>
      by_cases hl : l.isEmpty = true
      · simp [hl]
        exact processRawPayload_isObj t
      · simp [eq_false_of_ne_true hl, isObjJ]
    | null => exact processRawPayload_isObj t
    | bool b => exact processRawPayload_isObj t
    | num i => exact processRawPayload_isObj t
    | numF s => exact processRawPayload_isObj t
    | str s => exact processRawPayload_isObj t
    | arr l => exact processRawPayload_isObj t

/-- C10: a payload recovered for a role is always a dict — in particular,
when the selected fragment's raw text parses to a JSON array, the last dict
element is returned, and an array without dicts yields the error dict
`{"error": "Parsed list without dicts"}`. -/
theorem per_role_payload_is_dict :
    (∀ (ts : List TaskO) (kws : List String),
      isObjJ (extractByAgent ts kws) = true) ∧
    (∀ (t : TaskO) (l : List Json), jdUsable t = false →
      parseJsonFromRaw t.raw.toList = Json.arr l →
      processPayload t =
        match lastObjOf l with
        | some d => d
        | none => Json.obj [("error", Json.str "Parsed list without dicts")]) := by
  constructor
  · intro ts kws
    induction ts with
    | nil => rfl
    | cons t rest ih =>
      by_cases heq : lowerStr t.agent.data = []
      · simpa [extractByAgent, heq] using ih
      · by_cases hk : kwMatch (lowerStr t.agent.data) kws = true
        · simpa [extractByAgent, heq, hk] using processPayload_isObj t
        · simpa [extractByAgent, heq, eq_false_of_ne_true hk] using ih
  · intro t l hjd hparse
    have hraw : processPayload.processRawPayload t =
        match lastObjOf l with
        | some d => d
        | none => Json.obj [("error", Json.str "Parsed list without dicts")] := by
      unfold processPayload.processRawPayload
      rw [hparse]
    unfold processPayload
    cases hj : t.json_dict with
    | none => exact hraw
    | some v =>
      cases v with
      | obj l' =>
        have hl' : (! l'.isEmpty) = false := by
          have := hjd
          unfold jdUsable at this
          rw [hj] at this
          exact this
        show (if (! l'.isEmpty) = true then Json.obj l'
            else processPayload.processRawPayload t) =
          match lastObjOf l with
          | some d => d
          | none => Json.obj [("error", Json.str "Parsed list without dicts")]
        rw [hl']
        rw [if_neg (by simp : ¬(false = true))]
        exact hraw
      | null => exact hraw
      | bool b => exact hraw
      | num i => exact hraw
      | numF s => exact hraw
      | str s => exact hraw
      | arr l' => exact hraw

/-- Witness for C10 at a raw text parsing to `[1, {"a": 1}]`. -/
theorem per_role_payload_is_dict_witness :
    processPayload c10task = Json.obj [("a", Json.num 1)] := by
  have := per_role_payload_is_dict.2 c10task
    [Json.num 1, Json.obj [("a", Json.num 1)]] rfl rfl
  simpa using this

-- ---------------------------------------------------------------------------
-- C3: the enrichment merge precedence
-- ---------------------------------------------------------------------------

theorem dget_dinsert (l : List (String × Json)) (k : String) (v : Json)
    (k' : String) :
    dget (dinsert l k v) k' = if k = k' then some v else dget l k' := by
  induction l with
  | nil =>
    by_cases h : k = k' <;> simp [dinsert, dget, h]
  | cons p t ih =>
    obtain ⟨a, b⟩ := p
    by_cases hak : a = k
    · by_cases h : k = k'
      · subst h
        simp [dinsert, dget, hak]
      · simp [dinsert, dget, hak, h]
    · by_cases h : k = k'
      · subst h
        simp [dinsert, dget, hak, ih]
      · simp [dinsert, dget, hak, h, ih]

theorem dget_dinsertAll (l ps : List (String × Json)) (k : String) :
    dget (dinsertAll l ps) k =
      match lookupLastV ps k with
      | some v => some v
      | none => dget l k := by
  induction ps generalizing l with
  | nil => simp [dinsertAll, lookupLastV]
  | cons p t ih =>
    obtain ⟨a, b⟩ := p
    show dget (dinsertAll (dinsert l a b) t) k = _
    rw [ih, dget_dinsert]
    cases hl : lookupLastV t k with
    | some v => simp [lookupLastV, hl]
    | none =>
      by_cases hak : a = k
      · simp [lookupLastV, hl, hak]
      · simp [lookupLastV, hl, hak]

theorem dget_none_of_not_mem_keys (l : List (String × Json)) (k : String)
    (h : k ∉ l.map Prod.fst) : dget l k = none := by
  induction l with
  | nil => rfl
  | cons p t ih =>
    obtain ⟨a, b⟩ := p
    simp only [List.map_cons, List.mem_cons] at h
    push_neg at h
    obtain ⟨h1, h2⟩ := h
    have hak : ¬(a = k) := fun hx => h1 hx.symm
    simp only [dget, if_neg hak]
    exact ih h2

theorem lookupLastV_eq_dget (l : List (String × Json)) (k : String)
    (h : NodupKeys l) : lookupLastV l k = dget l k := by
  induction l with
  | nil => rfl
  | cons p t ih =>
    obtain ⟨a, b⟩ := p
    have hcons := List.nodup_cons.mp h
    have hna : a ∉ t.map Prod.fst := hcons.1
    have hnd : NodupKeys t := hcons.2
    by_cases hak : a = k
    · subst hak
      have ht : dget t a = none := dget_none_of_not_mem_keys t a hna
      have hlt : lookupLastV t a = none := by rw [ih hnd, ht]
      simp [lookupLastV, dget, hlt]
    · simp only [lookupLastV, dget, if_neg hak, ih hnd]
      cases dget t k <;> simp

theorem dget_filter_truthy (l : List (String × Json)) (k : String)
    (h : NodupKeys l) :
    dget (l.filter (fun p => truthy p.2)) k =
      match dget l k with
      | some v => if truthy v then some v else none
      | none => none := by
  induction l with
  | nil => rfl
  | cons p t ih =>
    obtain ⟨a, b⟩ := p
    have hcons := List.nodup_cons.mp h
    have hna : a ∉ t.map Prod.fst := hcons.1
    have hnd : NodupKeys t := hcons.2
    by_cases htb : truthy b = true
    · by_cases hak : a = k
      · subst hak
        simp [List.filter, htb, dget]
      · simp [List.filter, htb, dget, hak, ih hnd]
    · have htb' : truthy b = false := eq_false_of_ne_true htb
      by_cases hak : a = k
      · subst hak
        have hfilt : dget (t.filter (fun p => truthy p.2)) a = none := by
          apply dget_none_of_not_mem_keys
          intro hm
          obtain ⟨q, hq, hqa⟩ := List.mem_map.mp hm
          exact hna (List.mem_map.mpr ⟨q, List.mem_of_mem_filter hq, hqa⟩)
        simp [List.filter, htb', dget, hfilt]
      · simp [List.filter, htb', dget, hak, ih hnd]

/-- C3 (amended): in `{**obj, **jira_dict, **{k: v for k, v in obj.items()
if v}}` a truthy value from the freshly parsed object wins over *any*
existing value; the existing payload's value survives only when the fresh
object's value for that key is falsy or absent. -/
theorem merge_precedence (ps jira : List (String × Json)) (k : String)
    (hp : NodupKeys ps) (hj : NodupKeys jira) :
    dget (mergeJira ps jira) k =
      match dget ps k, dget jira k with
      | some v, some w => if truthy v then some v else some w
      | some v, none => some v
      | none, some w => some w
      | none, none => none := by
  have hpf : NodupKeys (ps.filter (fun p => truthy p.2)) := by
    unfold NodupKeys
    exact ((List.filter_sublist ps).map Prod.fst).nodup hp
  unfold mergeJira
  rw [dget_dinsertAll, dget_dinsertAll, dget_dinsertAll,
    lookupLastV_eq_dget _ _ hpf, dget_filter_truthy ps k hp,
    lookupLastV_eq_dget _ _ hj, lookupLastV_eq_dget _ _ hp]
  cases hv : dget ps k with
  | none => cases hw : dget jira k <;> simp [dget]
  | some v =>
    by_cases ht : truthy v = true
    · cases hw : dget jira k <;> simp [dget, ht]
    · have ht' : truthy v = false := eq_false_of_ne_true ht
      cases hw : dget jira k <;> simp [dget, ht']

/-- C3 counterexample: the sparse payload holds a non-empty
`jira_project_key` of `"A"`, the freshly parsed last balanced object holds
`"B"`, and the enricher keeps `"B"` — the fresh value — although the claim
demands the existing `"A"`. -/
theorem merge_precedence_counterexample :
    ensureJiraFields [("jira_project_key", Json.str "A")] [c3task] =
      [("jira_project_key", Json.str "B")] ∧
    Json.str "B" ≠ Json.str "A" := by
  refine ⟨rfl, ?_⟩
  intro h
  injection h with h1
  exact absurd h1 (by decide)

/-- Witness for the amended C3 merge precedence, at a key where both sides
are non-empty. -/
theorem merge_precedence_witness :
    dget (mergeJira [("jira_project_key", Json.str "B")]
        [("jira_project_key", Json.str "A")]) "jira_project_key" =
      some (Json.str "B") := by
  have := merge_precedence [("jira_project_key", Json.str "B")]
    [("jira_project_key", Json.str "A")] "jira_project_key"
    (by simp [NodupKeys]) (by simp [NodupKeys])
  simpa [dget, truthy] using this

-- ---------------------------------------------------------------------------
-- C9: targeted implementation-plan extraction
-- ---------------------------------------------------------------------------

/-- C9 (amended): when the plan field is still absent, the targeted
extraction finds the named array span and keeps the non-empty trimmed runs
of non-quote characters found between quotes (empty literals are skipped by
the `[^"]+` pattern); when the span is absent nothing is extracted; and the
sparse-payload example yields `implementation_plan == ["step1", "step2"]`
end to end through the enricher. -/
theorem plan_extraction :
    (∀ raw : List Char, findPlanArray raw = none →
      regexExtractImplementationPlan raw = ([], none)) ∧
    (∀ (raw : List Char) (x : String),
      x ∈ (regexExtractImplementationPlan raw).1 → x ≠ "") ∧
    dget (ensureJiraFields [] [c9task]) "implementation_plan" =
      some (Json.arr [Json.str "step1", Json.str "step2"]) := by
  refine ⟨?_, ?_, rfl⟩
  · intro raw hf
    simp [regexExtractImplementationPlan, hf]
  · intro raw x hx
    unfold regexExtractImplementationPlan at hx
    cases hf : findPlanArray raw with
    | none =>
      rw [hf] at hx
      simp at hx
    | some inner =>
      rw [hf] at hx
      simp only at hx
      split at hx
      · simp only at hx
        have := (List.mem_filter.mp hx).2
        simpa using this
      · simp at hx

/-- C9 counterexample: a quoted empty string literal is not returned as an
element; instead the scan of `["", "a"]` produces the single item `","`
(the run between the second and third quotes, trimmed), not `["", "a"]`. -/
theorem plan_extraction_counterexample :
    regexExtractImplementationPlan
        "\"implementation_plan\": [\"\", \"a\"]".toList = ([","], none) ∧
    ([","] : List String) ≠ ["", "a"] :=
  ⟨rfl, by decide⟩

/-- Witness for C9 (amended): a concrete extracted item is non-empty. -/
theorem plan_extraction_witness : ("step1" : String) ≠ "" :=
  plan_extraction.2.1
    "x \"implementation_plan\": [\"step1\",\"step2\"] y".toList "step1"
    (by decide)

-- ---------------------------------------------------------------------------
-- C4: LoadBundle never raises and classifies its failures
-- ---------------------------------------------------------------------------

theorem loadBundleE_ok_errors (env : LoadEnv) (fs : String → Option String)
    (st : BuildState) (h : loadBundleE env fs = Except.ok st) :
    st.errors = [] := by
  unfold loadBundleE at h
  simp only [bind, Except.bind] at h
  repeat' split at h
  all_goals try (cases h)
  all_goals exact rfl

/-- C4 (amended): `LoadBundle` is total; on success `errors` is empty, on
any failure it returns the placeholder state with exactly one
non-retryable error whose category classifies the caught exception —
`IO` for a missing file, `JSON` for malformed JSON, and `Validation` for
any `ValueError` (missing/invalid required fields, a non-dict bundle, or a
model-field validation failure), `Unknown` otherwise. -/
theorem load_bundle_errors (env : LoadEnv) (fs : String → Option String) :
    ((∃ st, loadBundleE env fs = Except.ok st ∧ LoadBundle env fs = st ∧
        st.errors = []) ∨
     (∃ ex, loadBundleE env fs = Except.error ex ∧
        LoadBundle env fs = makeErrorState env ex)) ∧
    (∀ ex, loadBundleE env fs = Except.error ex →
      (LoadBundle env fs).app_name = "UNKNOWN_APP" ∧
      (LoadBundle env fs).errors.map (fun e => e.category) = [classifyExn ex] ∧
      (LoadBundle env fs).errors.map (fun e => e.retryable) = [false] ∧
      (LoadBundle env fs).errors.map (fun e => e.origin) = ["LoadBundle"]) ∧
    (∀ p, env.bundlePath = some p → fs p = none →
      loadBundleE env fs = Except.error PyExn.fileNotFound) ∧
    (∀ p c, env.bundlePath = some p → fs p = some c →
      jsonParse c.toList = none →
      loadBundleE env fs = Except.error PyExn.jsonDecode) ∧
    (∀ p c b, env.bundlePath = some p → fs p = some c →
      jsonParse c.toList = some b →
      validateIncoming b = Except.error PyExn.valueErr →
      loadBundleE env fs = Except.error PyExn.valueErr) ∧
    classifyExn PyExn.fileNotFound = ErrorCategory.io ∧
    classifyExn PyExn.jsonDecode = ErrorCategory.json ∧
    classifyExn PyExn.valueErr = ErrorCategory.validation := by
  refine ⟨?_, ?_, ?_, ?_, ?_, rfl, rfl, rfl⟩
  · cases h : loadBundleE env fs with
    | ok st =>
      left
      exact ⟨st, rfl, by simp [LoadBundle, h], loadBundleE_ok_errors env fs st h⟩
    | error ex =>
      right
      exact ⟨ex, rfl, by simp [LoadBundle, h]⟩
  · intro ex h
    simp [LoadBundle, h, makeErrorState]
  · intro p hp hfs
    simp [loadBundleE, hp, hfs, bind, Except.bind]
  · intro p c hp hfs hjp
    have hjp' : jsonParse c.data = none := hjp
    simp [loadBundleE, hp, hfs, hjp', bind, Except.bind]
  · intro p c b hp hfs hjp hval
    have hjp' : jsonParse c.data = some b := hjp
    simp [loadBundleE, hp, hfs, hjp', hval, bind, Except.bind]

/-- C4 counterexample: a bundle that exists, is well-formed JSON, and passes
the required-field validation (`app_name` present, non-empty
`code_structure.files`) still produces a `Validation` error — a wrong-typed
`assumptions` field raises a pydantic `ValidationError` (a `ValueError`) —
where the claim's category map, whose Validation case covers only the
missing required fields, demands `Unknown`. -/
theorem load_bundle_counterexample :
    (jsonParse c4bundleText.toList).isSome = true ∧
    validateIncoming ((jsonParse c4bundleText.toList).getD Json.null) =
      Except.ok () ∧
    (LoadBundle c4env c4fs).errors.map (fun e => e.category) =
      [ErrorCategory.validation] ∧
    (LoadBundle c4env c4fs).errors.map (fun e => e.retryable) = [false] ∧
    (LoadBundle c4env c4fs).app_name = "UNKNOWN_APP" ∧
    ErrorCategory.validation ≠ ErrorCategory.unknown :=
  ⟨rfl, rfl, rfl, rfl, rfl, by decide⟩

/-- Witness for C4 (amended) at a missing bundle file. -/
theorem load_bundle_errors_witness :
    loadBundleE { bundlePath := some "x", githubUsername := none }
        (fun _ => none) = Except.error PyExn.fileNotFound :=
  (load_bundle_errors { bundlePath := some "x", githubUsername := none }
    (fun _ => none)).2.2.1 "x" rfl rfl

end Extract
